import Mathlib

/-
  Shallow embedding of the Xeno-lang pipeline (lexer, parser, evaluator),
  translated from src/lexer.rs, src/parser.rs, src/ast.rs, src/runtime.rs.

  Conventions:
  - Rust `i64` becomes `Int`; the one place the source casts an `i64` to
    `usize` (array indexing) is modelled by `toUsize`, the wrap-around
    reinterpretation modulo 2^64.
  - Rust `HashMap<String, Value>` becomes an association list with
    replace-on-insert semantics (`insertScope`) and first-match lookup
    (`lookupScope`), which has the same observable get/insert behaviour.
  - The `Vec<HashMap<..>>` scope stack is a `List Scope` whose HEAD is the
    innermost scope (the source pushes at the end of the Vec and iterates
    with `.rev()`, so head-innermost is the same search order).
  - `Runtime::eval_expr` takes `&mut self` but never mutates, so it is
    modelled as a pure function of the runtime; `eval_stmt` and
    `eval_function` do mutate, so they return the resulting runtime
    alongside the result, including on the error path (Rust's `?` early
    return leaves the mutations in place).
  - Character classification: `char::is_whitespace` (the Unicode
    White_Space property, a fixed 25-code-point set) is embedded exactly
    as `isWhitespaceRust`; `char::is_numeric` and `char::is_alphabetic`
    are large Unicode tables of the Rust standard library (external to
    this repository), so the lexer takes them as parameters, and the
    concrete `tokenize` instantiates them with the ASCII classifiers,
    which agree with Rust's on every ASCII code point (all concrete
    inputs lexed in this file are ASCII).
-/

namespace Xeno

/-- Token type, from src/lexer.rs `enum Token`. -/
inductive Token where
  | Fn
  | Let
  | Return
  | Int
  | IntArray
  | Ident (s : String)
  | IntLit (n : Int)
  | LParen
  | RParen
  | LBrace
  | RBrace
  | LBracket
  | RBracket
  | Comma
  | Semicolon
  | Colon
  | Equals
  | Dot
  | Eof
deriving DecidableEq

/-- Declared type, from src/ast.rs `enum Type` (renamed: `Type` is reserved in Lean). -/
inductive Ty where
  | Int
  | IntArray
deriving DecidableEq

/-- Function parameter, from src/ast.rs `struct Param`. -/
structure Param where
  name : String
  ty : Ty
deriving DecidableEq

/-- Expressions, from src/ast.rs `enum Expr`. -/
inductive Expr where
  | Int (n : Int)
  | Array (elems : List Expr)
  | Var (name : String)
  | DataRef (name : String)
  | Call (name : String) (args : List Expr)
  | Index (target : Expr) (index : Expr)

/-- Statements, from src/ast.rs `enum Stmt`. -/
inductive Stmt where
  | Let (name : String) (ty : Ty) (value : Expr)
  | ExprStmt (e : Expr)
  | Return (e : Expr)

/-- Function definition, from src/ast.rs `struct Function`. -/
structure Function where
  name : String
  params : List Param
  body : List Stmt
  return_expr : Option Expr

/-- Data definition, from src/ast.rs `struct DataDef`. -/
structure DataDef where
  entries : List (String × Int)

/-- Parsed file, from src/ast.rs `enum FileContent`. -/
inductive FileContent where
  | Function (f : Xeno.Function)
  | Data (d : DataDef)

/-- Runtime values, from src/runtime.rs `enum Value`. -/
inductive Value where
  | Int (n : Int)
  | Array (elems : List Value)

/-- One name → Value mapping (model of `HashMap<String, Value>`). -/
abbrev Scope := List (String × Value)

/-- Map lookup on the association-list model of `HashMap`. -/
def lookupScope (name : String) : Scope → Option Value
  | [] => none
  | (k, v) :: rest => if k = name then some v else lookupScope name rest

/-- Map insert (replace-on-collision) on the association-list model of `HashMap`. -/
def insertScope (name : String) (v : Value) : Scope → Scope
  | [] => [(name, v)]
  | (k, w) :: rest =>
      if k = name then (name, v) :: rest else (k, w) :: insertScope name v rest

/-- The evaluator state, from src/runtime.rs `struct Runtime`.
The head of `locals` is the innermost scope. -/
structure Runtime where
  globals : Scope
  locals : List Scope

/-- `Runtime::new`. -/
def Runtime.new : Runtime := ⟨[], []⟩

/-- `Runtime::set_global`. -/
def setGlobal (rt : Runtime) (name : String) (v : Value) : Runtime :=
  { rt with globals := insertScope name v rt.globals }

/-- Search the local scopes innermost-first (the loop in `Runtime::get_var`). -/
def lookupLocals (name : String) : List Scope → Option Value
  | [] => none
  | s :: rest =>
      match lookupScope name s with
      | some v => some v
      | none => lookupLocals name rest

/-- `Runtime::get_var`: locals innermost to outermost, then globals. -/
def getVar (rt : Runtime) (name : String) : Option Value :=
  match lookupLocals name rt.locals with
  | some v => some v
  | none => lookupScope name rt.globals

/-- `Runtime::set_var`: innermost local scope if one exists, else globals. -/
def setVar (rt : Runtime) (name : String) (v : Value) : Runtime :=
  match rt.locals with
  | [] => { rt with globals := insertScope name v rt.globals }
  | s :: rest => { rt with locals := insertScope name v s :: rest }

/-- `Runtime::push_scope`. -/
def pushScope (rt : Runtime) : Runtime :=
  { rt with locals := [] :: rt.locals }

/-- `Runtime::pop_scope`. -/
def popScope (rt : Runtime) : Runtime :=
  { rt with locals := rt.locals.tail }

/-- The `*idx as usize` cast in `Runtime::eval_expr`: wrap-around
reinterpretation of an `i64` as a 64-bit unsigned position. -/
def toUsize (n : Int) : Nat := (n % (2 : Int) ^ 64).toNat

mutual

/-- `Runtime::eval_expr` (it never mutates the runtime, so it is pure here). -/
def evalExpr (rt : Runtime) : Expr → Except String Value
  | Expr.Int n => Except.ok (Value.Int n)
  | Expr.Array es =>
      match evalExprList rt es with
      | Except.error e => Except.error e
      | Except.ok vs => Except.ok (Value.Array vs)
  | Expr.Var name =>
      match getVar rt name with
      | some v => Except.ok v
      | none => Except.error ("Undefined variable: " ++ name)
  | Expr.DataRef name =>
      match getVar rt name with
      | some v => Except.ok v
      | none => Except.error ("Undefined data field: " ++ name)
  | Expr.Call name _ =>
      Except.error ("Function calls not yet supported in evaluation: " ++ name)
  | Expr.Index target index =>
      match evalExpr rt target with
      | Except.error e => Except.error e
      | Except.ok target_val =>
          match evalExpr rt index with
          | Except.error e => Except.error e
          | Except.ok index_val =>
              match target_val, index_val with
              | Value.Array arr, Value.Int idx =>
                  let i := toUsize idx
                  match arr[i]? with
                  | some v => Except.ok v
                  | none => Except.error ("Array index out of bounds: " ++ toString i)
              | _, _ => Except.error "Array indexing requires array and int"

/-- The element loop of the `Expr::Array` arm of `Runtime::eval_expr`. -/
def evalExprList (rt : Runtime) : List Expr → Except String (List Value)
  | [] => Except.ok []
  | e :: es =>
      match evalExpr rt e with
      | Except.error err => Except.error err
      | Except.ok v =>
          match evalExprList rt es with
          | Except.error err => Except.error err
          | Except.ok vs => Except.ok (v :: vs)

end

/-- `Runtime::eval_stmt`; the returned runtime carries the mutation
(`set_var` for `Let`), and is unchanged when evaluation fails. -/
def evalStmt (rt : Runtime) : Stmt → Except String (Option Value) × Runtime
  | Stmt.Let name _ value =>
      match evalExpr rt value with
      | Except.error e => (Except.error e, rt)
      | Except.ok v => (Except.ok none, setVar rt name v)
  | Stmt.ExprStmt e =>
      match evalExpr rt e with
      | Except.error err => (Except.error err, rt)
      | Except.ok _ => (Except.ok none, rt)
  | Stmt.Return e =>
      match evalExpr rt e with
      | Except.error err => (Except.error err, rt)
      | Except.ok v => (Except.ok (some v), rt)

/-- The body loop of `Runtime::eval_function`: runs statements in order,
stopping at the first one that yields a value; `Except.ok none` means the
loop ran to completion without an explicit `Return`. -/
def evalBody (rt : Runtime) : List Stmt → Except String (Option Value) × Runtime
  | [] => (Except.ok none, rt)
  | s :: rest =>
      match evalStmt rt s with
      | (Except.error e, rt') => (Except.error e, rt')
      | (Except.ok (some v), rt') => (Except.ok (some v), rt')
      | (Except.ok none, rt') => evalBody rt' rest

/-- The parameter-binding loop of `Runtime::eval_function`. -/
def bindParams (rt : Runtime) (params : List Param) (args : List Value) : Runtime :=
  (params.zip args).foldl (fun r pa => setVar r pa.1.name pa.2) rt

/-- `Runtime::eval_function`. The second component is the runtime state
after the call, including on the error path: the Rust `?` operator
returns before `pop_scope` runs. -/
def evalFunction (rt : Runtime) (func : Xeno.Function) (args : List Value) :
    Except String Value × Runtime :=
  if func.params.length ≠ args.length then
    (Except.error ("Function " ++ func.name ++ " expects " ++
        toString func.params.length ++ " arguments, got " ++
        toString args.length), rt)
  else
    let rt1 := bindParams (pushScope rt) func.params args
    match evalBody rt1 func.body with
    | (Except.error e, rt2) => (Except.error e, rt2)
    | (Except.ok bodyResult, rt2) =>
        match func.return_expr with
        | some e =>
            match evalExpr rt2 e with
            | Except.error err => (Except.error err, rt2)
            | Except.ok v => (Except.ok v, popScope rt2)
        | none => (Except.ok (bodyResult.getD (Value.Int 0)), popScope rt2)

/-! ### Lexer, from src/lexer.rs

Character classification: the source relies on three Rust
standard-library classifiers. `char::is_whitespace` is the Unicode
White_Space property, a fixed set of 25 code points, embedded exactly as
`isWhitespaceRust`. `char::is_numeric` (Unicode Nd/Nl/No) and
`char::is_alphabetic` (Unicode Alphabetic) are large Unicode tables
external to this repository, so the lexer is embedded parametrically in
them (`isNum`, `isAlphab`); `c.is_alphanumeric()` is defined in Rust as
`c.is_alphabetic() || c.is_numeric()` and appears below in that form.
The concrete `tokenize` instantiates the two parameters with the ASCII
classifiers `Char.isDigit` and `Char.isAlpha`, which agree with the Rust
classifiers on every ASCII code point; it is applied only to all-ASCII
input in this file. -/

/-- Rust `char::is_whitespace`: the Unicode White_Space property (a fixed
set of 25 code points), tested on the character's code point. -/
def isWhitespaceRust (c : Char) : Bool :=
  c.toNat = 0x09 || c.toNat = 0x0A || c.toNat = 0x0B || c.toNat = 0x0C ||
  c.toNat = 0x0D || c.toNat = 0x20 || c.toNat = 0x85 || c.toNat = 0xA0 ||
  c.toNat = 0x1680 || (0x2000 ≤ c.toNat && c.toNat ≤ 0x200A) ||
  c.toNat = 0x2028 || c.toNat = 0x2029 || c.toNat = 0x202F ||
  c.toNat = 0x205F || c.toNat = 0x3000

/-- `Lexer::skip_whitespace`. -/
def skipWs (cs : List Char) : List Char := cs.dropWhile isWhitespaceRust

/-- `Lexer::read_ident`: the maximal run of alphanumeric
(`is_alphabetic || is_numeric`) or underscore characters, and the rest. -/
def readIdentChars (isNum isAlphab : Char → Bool) :
    List Char → List Char × List Char
  | [] => ([], [])
  | c :: cs =>
      if (isAlphab c || isNum c) = true ∨ c = '_' then
        let p := readIdentChars isNum isAlphab cs
        (c :: p.1, p.2)
      else ([], c :: cs)

/-- The collecting loop of `Lexer::read_number` (it collects `is_numeric`
characters): the maximal numeric run, and the rest. -/
def readDigits (isNum : Char → Bool) : List Char → List Char × List Char
  | [] => ([], [])
  | c :: cs =>
      if isNum c then
        let p := readDigits isNum cs
        (c :: p.1, p.2)
      else ([], c :: cs)

/-- Decimal value of an ASCII digit run. -/
def digitsToNat (ds : List Char) : Nat :=
  ds.foldl (fun acc c => acc * 10 + (c.toNat - 48)) 0

/-- Largest `i64` value. -/
def maxI64 : Nat := 9223372036854775807

/-- The `num.parse().unwrap_or(0)` step of `Lexer::read_number`:
`str::parse::<i64>` succeeds exactly on a non-empty, unsigned run of
ASCII decimal digits whose value fits in `i64`. A collected run may
contain non-ASCII `is_numeric` characters, which make the parse fail;
on any failure (non-ASCII digit, overflow, or the empty run) the value
degrades to `0`. -/
def parseI64 (ds : List Char) : Int :=
  if ds ≠ [] ∧ ds.all Char.isDigit = true ∧ digitsToNat ds ≤ maxI64 then
    Int.ofNat (digitsToNat ds)
  else 0

/-- The keyword reclassification in `Lexer::next_token`. -/
def keywordOrIdent (s : String) : Token :=
  if s = "fn" then Token.Fn
  else if s = "let" then Token.Let
  else if s = "return" then Token.Return
  else if s = "int" then Token.Int
  else Token.Ident s

/-- The single-character punctuation arms of the `match` in
`Lexer::next_token`: the token for a fixed punctuation mark, or `none`
for a character those arms do not cover. -/
def punctToken (c : Char) : Option Token :=
  if c = '(' then some Token.LParen
  else if c = ')' then some Token.RParen
  else if c = '\x7b' then some Token.LBrace
  else if c = '\x7d' then some Token.RBrace
  else if c = '[' then some Token.LBracket
  else if c = ']' then some Token.RBracket
  else if c = ',' then some Token.Comma
  else if c = ';' then some Token.Semicolon
  else if c = ':' then some Token.Colon
  else if c = '=' then some Token.Equals
  else if c = '.' then some Token.Dot
  else none

/-- The dispatch on the current character in `Lexer::next_token`, applied
after whitespace has been skipped: fixed punctuation, then `is_numeric`,
then `is_alphabetic || '_'`, then the one-character-identifier
fall-through. -/
def nextTokenAt (isNum isAlphab : Char → Bool) : List Char → Token × List Char
  | [] => (Token.Eof, [])
  | c :: rest =>
      match punctToken c with
      | some t => (t, rest)
      | none =>
          if isNum c then
            let p := readDigits isNum (c :: rest)
            (Token.IntLit (parseI64 p.1), p.2)
          else if isAlphab c = true ∨ c = '_' then
            let p := readIdentChars isNum isAlphab (c :: rest)
            (keywordOrIdent (String.mk p.1), p.2)
          else (Token.Ident (String.mk [c]), rest)

/-- `Lexer::next_token`, as a function from the remaining input to the
produced token and the input left after it, parametric in the Rust
numeric/alphabetic classifiers. -/
def nextToken (isNum isAlphab : Char → Bool) (cs : List Char) : Token × List Char :=
  nextTokenAt isNum isAlphab (skipWs cs)

theorem skipWs_length (cs : List Char) : (skipWs cs).length ≤ cs.length := by
  induction cs with
  | nil => simp [skipWs]
  | cons c cs ih =>
      by_cases h : isWhitespaceRust c <;>
        simp [skipWs, List.dropWhile, h] at ih ⊢ <;> omega

theorem readDigits_rest_length (isNum : Char → Bool) (cs : List Char) :
    (readDigits isNum cs).2.length ≤ cs.length := by
  induction cs with
  | nil => simp [readDigits]
  | cons c cs ih =>
      by_cases h : isNum c <;> simp [readDigits, h] <;> omega

theorem readIdentChars_rest_length (isNum isAlphab : Char → Bool) (cs : List Char) :
    (readIdentChars isNum isAlphab cs).2.length ≤ cs.length := by
  induction cs with
  | nil => simp [readIdentChars]
  | cons c cs ih =>
      simp only [readIdentChars]
      by_cases h : (isAlphab c || isNum c) = true ∨ c = '_'
      · rw [if_pos h]
        show (readIdentChars isNum isAlphab cs).2.length ≤ cs.length + 1
        exact le_trans ih (Nat.le_succ _)
      · rw [if_neg h]

theorem nextTokenAt_cons_length (isNum isAlphab : Char → Bool) (c : Char)
    (rest : List Char) :
    (nextTokenAt isNum isAlphab (c :: rest)).2.length ≤ rest.length := by
  have hd := readDigits_rest_length isNum rest
  have hi := readIdentChars_rest_length isNum isAlphab rest
  simp only [nextTokenAt]
  cases punctToken c with
  | some t => simp
  | none =>
      split_ifs with h1 h2
      · simp only [readDigits, h1, if_pos]
        omega
      · have h2' : (isAlphab c || isNum c) = true ∨ c = '_' := by
          rcases h2 with h | h
          · left; simp [h]
          · right; exact h
        simp only [readIdentChars]
        rw [if_pos h2']
        simpa using hi
      · simp

theorem nextToken_snd_lt (isNum isAlphab : Char → Bool) (cs : List Char)
    (h : (nextToken isNum isAlphab cs).1 ≠ Token.Eof) :
    (nextToken isNum isAlphab cs).2.length < cs.length := by
  have hws := skipWs_length cs
  unfold nextToken at h ⊢
  cases hs : skipWs cs with
  | nil => rw [hs] at h; simp [nextTokenAt] at h
  | cons c rest =>
      rw [hs] at hws
      have := nextTokenAt_cons_length isNum isAlphab c rest
      simp only [List.length_cons] at hws
      omega

/-- The loop of `Lexer::tokenize`, with an explicit recursion bound. Each
non-`Eof` token consumes at least one character (`nextToken_snd_lt`), so
the bound `cs.length + 1` used by `tokenizeWith` is never exhausted; the
`0` arm is unreachable from `tokenizeWith`. -/
def tokenizeAux (isNum isAlphab : Char → Bool) : Nat → List Char → List Token
  | 0, _ => []
  | n + 1, cs =>
      match nextToken isNum isAlphab cs with
      | (Token.Eof, _) => [Token.Eof]
      | (t, rest) => t :: tokenizeAux isNum isAlphab n rest

/-- `Lexer::tokenize`: repeatedly take the next token until the
end-marker, parametric in the Rust numeric/alphabetic classifiers. -/
def tokenizeWith (isNum isAlphab : Char → Bool) (cs : List Char) : List Token :=
  tokenizeAux isNum isAlphab (cs.length + 1) cs

/-- `tokenizeWith` at the ASCII classifiers, which agree with Rust's
`is_numeric`/`is_alphabetic` on every ASCII code point; every concrete
input lexed in this file is ASCII. -/
def tokenize (cs : List Char) : List Token :=
  tokenizeWith Char.isDigit Char.isAlpha cs

/-! ### Parser, from src/parser.rs

The parser state (`tokens` plus a cursor `pos`) is modelled by the list of
tokens not yet consumed: `Parser::current` is the head (or `Eof` past the
end) and `Parser::advance` drops the head, which is observationally the
same as the source's saturating cursor. -/

/-- `Parser::current`. -/
def currentTok : List Token → Token
  | [] => Token.Eof
  | t :: _ => t

/-- `Parser::advance`. -/
def advanceTok : List Token → List Token
  | [] => []
  | _ :: ts => ts

/-- Rust `{:?}` (Debug) formatting of a token, used in parse error messages. -/
def reprToken : Token → String
  | Token.Fn => "Fn"
  | Token.Let => "Let"
  | Token.Return => "Return"
  | Token.Int => "Int"
  | Token.IntArray => "IntArray"
  | Token.Ident s => "Ident(\"" ++ s ++ "\")"
  | Token.IntLit n => "IntLit(" ++ toString n ++ ")"
  | Token.LParen => "LParen"
  | Token.RParen => "RParen"
  | Token.LBrace => "LBrace"
  | Token.RBrace => "RBrace"
  | Token.LBracket => "LBracket"
  | Token.RBracket => "RBracket"
  | Token.Comma => "Comma"
  | Token.Semicolon => "Semicolon"
  | Token.Colon => "Colon"
  | Token.Equals => "Equals"
  | Token.Dot => "Dot"
  | Token.Eof => "Eof"

/-- `Parser::expect`. -/
def expect (expected : Token) (ts : List Token) : Except String (List Token) :=
  if currentTok ts = expected then Except.ok (advanceTok ts)
  else
    Except.error ("Expected " ++ reprToken expected ++ ", got " ++
      reprToken (currentTok ts))

/-- `Parser::parse_type`. -/
def parseType (ts : List Token) : Except String (Ty × List Token) :=
  match currentTok ts with
  | Token.Int =>
      let ts1 := advanceTok ts
      match currentTok ts1 with
      | Token.LBracket =>
          (match expect Token.RBracket (advanceTok ts1) with
           | Except.error e => Except.error e
           | Except.ok ts2 => Except.ok (Ty.IntArray, ts2))
      | _ => Except.ok (Ty.Int, ts1)
  | t => Except.error ("Expected type, got " ++ reprToken t)

theorem advanceTok_length_le (ts : List Token) :
    (advanceTok ts).length ≤ ts.length := by
  cases ts <;> simp [advanceTok]

theorem advanceTok_length_lt (ts : List Token) (h : currentTok ts ≠ Token.Eof) :
    (advanceTok ts).length < ts.length := by
  cases ts with
  | nil => simp [currentTok] at h
  | cons t rest => simp [advanceTok]

theorem expect_ok_length {t : Token} {ts ts' : List Token}
    (h : expect t ts = Except.ok ts') : ts'.length ≤ ts.length := by
  unfold expect at h
  split_ifs at h with h1
  cases h
  exact advanceTok_length_le ts

/-- `Parser::parse_data`: the entry-accumulating loop, returning the entries
together with the tokens left unconsumed. -/
def parseData (ts : List Token) : Except String (List (String × Int) × List Token) :=
  if currentTok ts = Token.Eof ∨ currentTok ts = Token.RBrace then
    Except.ok ([], ts)
  else if hlet : currentTok ts = Token.Let then
    match currentTok (advanceTok ts) with
    | Token.Ident n =>
        match h2 : expect Token.Colon (advanceTok (advanceTok ts)) with
        | Except.error e => Except.error e
        | Except.ok ts2 =>
            match h3 : expect Token.Int ts2 with
            | Except.error e => Except.error e
            | Except.ok ts3 =>
                match h4 : expect Token.Equals ts3 with
                | Except.error e => Except.error e
                | Except.ok ts4 =>
                    match currentTok ts4 with
                    | Token.IntLit v =>
                        (match h5 : expect Token.Semicolon (advanceTok ts4) with
                         | Except.error e => Except.error e
                         | Except.ok ts5 =>
                             match parseData ts5 with
                             | Except.error e => Except.error e
                             | Except.ok (entries, ts6) =>
                                 Except.ok ((n, v) :: entries, ts6))
                    | _ => Except.error "Expected integer value"
    | _ => Except.error "Expected variable name"
  else Except.ok ([], ts)
termination_by ts.length
decreasing_by
  have e1 := expect_ok_length h2
  have e2 := expect_ok_length h3
  have e3 := expect_ok_length h4
  have e4 := expect_ok_length h5
  have a4 := advanceTok_length_le ts4
  have a2 := advanceTok_length_le (advanceTok ts)
  have a1 : (advanceTok ts).length < ts.length := by
    apply advanceTok_length_lt
    rw [hlet]
    intro hc
    cases hc
  omega

mutual

/-- `Parser::parse_expr` (fuelled: the fuel only bounds recursion depth of
the model; the source recursion always consumes tokens, so any
sufficiently large fuel computes the same result). -/
def parseExprF : Nat → List Token → Except String (Expr × List Token)
  | 0, _ => Except.error "out of fuel"
  | n + 1, ts => parsePrimaryF n ts

/-- The primary-form dispatch of `Parser::parse_primary`, before the
postfix loop. -/
def parsePrimaryF : Nat → List Token → Except String (Expr × List Token)
  | 0, _ => Except.error "out of fuel"
  | n + 1, ts =>
      match
        (match currentTok ts with
         | Token.IntLit v => Except.ok (Expr.Int v, advanceTok ts)
         | Token.Dot =>
             (match currentTok (advanceTok ts) with
              | Token.Ident name =>
                  Except.ok (Expr.DataRef name, advanceTok (advanceTok ts))
              | _ => Except.error "Expected field name after .")
         | Token.Ident name => Except.ok (Expr.Var name, advanceTok ts)
         | Token.LBracket =>
             let ts1 := advanceTok ts
             if currentTok ts1 = Token.RBracket then
               (match expect Token.RBracket ts1 with
                | Except.error e => Except.error e
                | Except.ok ts2 => Except.ok (Expr.Array [], ts2))
             else
               (match parseArrayElemsF n ts1 with
                | Except.error e => Except.error e
                | Except.ok (es, ts2) =>
                    match expect Token.RBracket ts2 with
                    | Except.error e => Except.error e
                    | Except.ok ts3 => Except.ok (Expr.Array es, ts3))
         | Token.LParen =>
             (match parseExprF n (advanceTok ts) with
              | Except.error e => Except.error e
              | Except.ok (e, ts1) =>
                  match expect Token.RParen ts1 with
                  | Except.error err => Except.error err
                  | Except.ok ts2 => Except.ok (e, ts2))
         | t => Except.error ("Unexpected token: " ++ reprToken t)) with
      | Except.error e => Except.error e
      | Except.ok (e, ts1) => parsePostfixF n e ts1

/-- The element loop of the array-literal arm of `Parser::parse_primary`. -/
def parseArrayElemsF : Nat → List Token → Except String (List Expr × List Token)
  | 0, _ => Except.error "out of fuel"
  | n + 1, ts =>
      match parseExprF n ts with
      | Except.error e => Except.error e
      | Except.ok (e, ts1) =>
          if currentTok ts1 = Token.Comma then
            match parseArrayElemsF n (advanceTok ts1) with
            | Except.error err => Except.error err
            | Except.ok (es, ts2) => Except.ok (e :: es, ts2)
          else Except.ok ([e], ts1)

/-- The postfix (call / index) loop of `Parser::parse_primary`. -/
def parsePostfixF : Nat → Expr → List Token → Except String (Expr × List Token)
  | 0, _, _ => Except.error "out of fuel"
  | n + 1, e, ts =>
      match currentTok ts with
      | Token.LParen =>
          (match e with
           | Expr.Var name =>
               (match parseArgsF n (advanceTok ts) with
                | Except.error err => Except.error err
                | Except.ok (args, ts1) =>
                    match expect Token.RParen ts1 with
                    | Except.error err => Except.error err
                    | Except.ok ts2 => parsePostfixF n (Expr.Call name args) ts2)
           | _ => Except.error "Only identifiers can be called")
      | Token.LBracket =>
          (match parseExprF n (advanceTok ts) with
           | Except.error err => Except.error err
           | Except.ok (ix, ts1) =>
               match expect Token.RBracket ts1 with
               | Except.error err => Except.error err
               | Except.ok ts2 => parsePostfixF n (Expr.Index e ix) ts2)
      | _ => Except.ok (e, ts)

/-- `Parser::parse_args`. -/
def parseArgsF : Nat → List Token → Except String (List Expr × List Token)
  | 0, _ => Except.error "out of fuel"
  | n + 1, ts =>
      if currentTok ts = Token.RParen then Except.ok ([], ts)
      else parseArgsLoopF n ts

/-- The argument loop of `Parser::parse_args` (entered only when the list
is non-empty; a comma is always followed by another expression). -/
def parseArgsLoopF : Nat → List Token → Except String (List Expr × List Token)
  | 0, _ => Except.error "out of fuel"
  | n + 1, ts =>
      match parseExprF n ts with
      | Except.error e => Except.error e
      | Except.ok (e, ts1) =>
          if currentTok ts1 = Token.Comma then
            match parseArgsLoopF n (advanceTok ts1) with
            | Except.error err => Except.error err
            | Except.ok (es, ts2) => Except.ok (e :: es, ts2)
          else Except.ok ([e], ts1)

end

/-- `Parser::parse_let`. -/
def parseLetF (n : Nat) (ts : List Token) : Except String (Stmt × List Token) :=
  match expect Token.Let ts with
  | Except.error e => Except.error e
  | Except.ok ts1 =>
      match currentTok ts1 with
      | Token.Ident name =>
          (match expect Token.Colon (advanceTok ts1) with
           | Except.error e => Except.error e
           | Except.ok ts2 =>
               match parseType ts2 with
               | Except.error e => Except.error e
               | Except.ok (ty, ts3) =>
                   match expect Token.Equals ts3 with
                   | Except.error e => Except.error e
                   | Except.ok ts4 =>
                       match parseExprF n ts4 with
                       | Except.error e => Except.error e
                       | Except.ok (v, ts5) =>
                           match expect Token.Semicolon ts5 with
                           | Except.error e => Except.error e
                           | Except.ok ts6 => Except.ok (Stmt.Let name ty v, ts6))
      | _ => Except.error "Expected variable name"

/-- `Parser::parse_block` (fuelled loop over statements). -/
def parseBlockF : Nat → List Token → Except String ((List Stmt × Option Expr) × List Token)
  | 0, _ => Except.error "out of fuel"
  | n + 1, ts =>
      if currentTok ts = Token.RBrace ∨ currentTok ts = Token.Eof then
        Except.ok (([], none), ts)
      else
        match currentTok ts with
        | Token.Let =>
            (match parseLetF n ts with
             | Except.error e => Except.error e
             | Except.ok (s, ts1) =>
                 match parseBlockF n ts1 with
                 | Except.error e => Except.error e
                 | Except.ok ((ss, r), ts2) => Except.ok ((s :: ss, r), ts2))
        | Token.Return =>
            (match parseExprF n (advanceTok ts) with
             | Except.error e => Except.error e
             | Except.ok (e, ts1) =>
                 match expect Token.Semicolon ts1 with
                 | Except.error e => Except.error e
                 | Except.ok ts2 =>
                     match parseBlockF n ts2 with
                     | Except.error err => Except.error err
                     | Except.ok ((ss, r), ts3) =>
                         Except.ok ((Stmt.Return e :: ss, r), ts3))
        | _ =>
            (match parseExprF n ts with
             | Except.error e => Except.error e
             | Except.ok (e, ts1) =>
                 if currentTok ts1 = Token.Semicolon then
                   match parseBlockF n (advanceTok ts1) with
                   | Except.error err => Except.error err
                   | Except.ok ((ss, r), ts2) =>
                       Except.ok ((Stmt.ExprStmt e :: ss, r), ts2)
                 else Except.ok (([], some e), ts1))

/-- The parameter loop of `Parser::parse_params` (entered when the list is
non-empty). -/
def parseParamsLoopF : Nat → List Token → Except String (List Param × List Token)
  | 0, _ => Except.error "out of fuel"
  | n + 1, ts =>
      match currentTok ts with
      | Token.Ident name =>
          (match expect Token.Colon (advanceTok ts) with
           | Except.error e => Except.error e
           | Except.ok ts1 =>
               match parseType ts1 with
               | Except.error e => Except.error e
               | Except.ok (ty, ts2) =>
                   if currentTok ts2 = Token.Comma then
                     match parseParamsLoopF n (advanceTok ts2) with
                     | Except.error err => Except.error err
                     | Except.ok (ps, ts3) => Except.ok (⟨name, ty⟩ :: ps, ts3)
                   else Except.ok ([⟨name, ty⟩], ts2))
      | _ => Except.error "Expected parameter name"

/-- `Parser::parse_params`. -/
def parseParamsF (n : Nat) (ts : List Token) : Except String (List Param × List Token) :=
  if currentTok ts = Token.RParen then Except.ok ([], ts)
  else parseParamsLoopF n ts

/-- `Parser::parse_function`. -/
def parseFunctionF (n : Nat) (ts : List Token) : Except String (Xeno.Function × List Token) :=
  match expect Token.Fn ts with
  | Except.error e => Except.error e
  | Except.ok ts1 =>
      match currentTok ts1 with
      | Token.Ident name =>
          (match expect Token.LParen (advanceTok ts1) with
           | Except.error e => Except.error e
           | Except.ok ts2 =>
               match parseParamsF n ts2 with
               | Except.error e => Except.error e
               | Except.ok (params, ts3) =>
                   match expect Token.RParen ts3 with
                   | Except.error e => Except.error e
                   | Except.ok ts4 =>
                       match expect Token.LBrace ts4 with
                       | Except.error e => Except.error e
                       | Except.ok ts5 =>
                           match parseBlockF n ts5 with
                           | Except.error e => Except.error e
                           | Except.ok ((stmts, retE), ts6) =>
                               match expect Token.RBrace ts6 with
                               | Except.error e => Except.error e
                               | Except.ok ts7 =>
                                   Except.ok (⟨name, params, stmts, retE⟩, ts7))
      | _ => Except.error "Expected function name"

/-- `Parser::parse_file`. -/
def parseFileF (n : Nat) (ts : List Token) : Except String (FileContent × List Token) :=
  match currentTok ts with
  | Token.Let =>
      (match parseData ts with
       | Except.error e => Except.error e
       | Except.ok (entries, ts1) => Except.ok (FileContent.Data ⟨entries⟩, ts1))
  | Token.Fn =>
      (match parseFunctionF n ts with
       | Except.error e => Except.error e
       | Except.ok (f, ts1) => Except.ok (FileContent.Function f, ts1))
  | t => Except.error ("Expected fn or let, got " ++ reprToken t)

/-- Entry point for one expression, as `Parser::parse_expr` called on a
fresh token list (fuel `2 * length + 2` exceeds any possible recursion
depth, each nesting level consuming at least one token). -/
def parseExprRun (ts : List Token) : Except String (Expr × List Token) :=
  parseExprF (2 * ts.length + 2) ts

/-- Top-level `parse` from src/parser.rs: lex, then parse one file. -/
def parse (input : String) : Except String FileContent :=
  let ts := tokenize input.data
  match parseFileF (2 * ts.length + 2) ts with
  | Except.error e => Except.error e
  | Except.ok (fc, _) => Except.ok fc

/-! ### Invariant lemmas about the scope stack -/

theorem setVar_locals_length (rt : Runtime) (n : String) (v : Value) :
    (setVar rt n v).locals.length = rt.locals.length := by
  rcases rt with ⟨g, locals⟩
  cases locals <;> simp [setVar]

theorem setVar_globals_of_locals_ne_nil (rt : Runtime) (n : String) (v : Value)
    (h : rt.locals ≠ []) : (setVar rt n v).globals = rt.globals := by
  rcases rt with ⟨g, locals⟩
  cases locals with
  | nil => simp at h
  | cons s rest => simp [setVar]

theorem foldl_setVar_locals_length (l : List (Param × Value)) :
    ∀ rt : Runtime,
      (l.foldl (fun r pa => setVar r pa.1.name pa.2) rt).locals.length =
        rt.locals.length := by
  induction l with
  | nil => intro rt; rfl
  | cons pa l ih =>
      intro rt
      simp only [List.foldl_cons]
      rw [ih, setVar_locals_length]

theorem bindParams_locals_length (rt : Runtime) (ps : List Param) (args : List Value) :
    (bindParams rt ps args).locals.length = rt.locals.length :=
  foldl_setVar_locals_length (ps.zip args) rt

theorem evalStmt_locals_length (rt : Runtime) (s : Stmt) :
    (evalStmt rt s).2.locals.length = rt.locals.length := by
  cases s with
  | Let n ty value =>
      unfold evalStmt
      cases h : evalExpr rt value <;> simp [h, setVar_locals_length]
  | ExprStmt e =>
      unfold evalStmt
      cases h : evalExpr rt e <;> simp [h]
  | Return e =>
      unfold evalStmt
      cases h : evalExpr rt e <;> simp [h]

theorem evalBody_locals_length (stmts : List Stmt) :
    ∀ rt : Runtime, (evalBody rt stmts).2.locals.length = rt.locals.length := by
  induction stmts with
  | nil => intro rt; rfl
  | cons s rest ih =>
      intro rt
      have hs := evalStmt_locals_length rt s
      unfold evalBody
      rcases h : evalStmt rt s with ⟨res, rt'⟩
      rw [h] at hs
      cases res with
      | error e => simpa using hs
      | ok ov =>
          cases ov with
          | none => simpa [ih rt'] using hs
          | some v => simpa using hs

/-! ### Call sub-expressions -/

mutual

/-- Whether an expression contains a `Call` node anywhere. -/
def containsCall : Expr → Bool
  | Expr.Int _ => false
  | Expr.Array es => containsCallList es
  | Expr.Var _ => false
  | Expr.DataRef _ => false
  | Expr.Call _ _ => true
  | Expr.Index t ix => containsCall t || containsCall ix

/-- Whether any expression of a list contains a `Call` node. -/
def containsCallList : List Expr → Bool
  | [] => false
  | e :: es => containsCall e || containsCallList es

end

mutual

theorem evalExpr_containsCall_error (rt : Runtime) :
    ∀ e : Expr, containsCall e = true → ∃ msg, evalExpr rt e = Except.error msg
  | Expr.Int _ => by simp [containsCall]
  | Expr.Array es => fun h => by
      obtain ⟨msg, hm⟩ := evalExprList_containsCall_error rt es
        (by simpa [containsCall] using h)
      exact ⟨msg, by simp [evalExpr, hm]⟩
  | Expr.Var _ => by simp [containsCall]
  | Expr.DataRef _ => by simp [containsCall]
  | Expr.Call name args => fun _ =>
      ⟨"Function calls not yet supported in evaluation: " ++ name, rfl⟩
  | Expr.Index t ix => fun h => by
      have hor : containsCall t = true ∨ containsCall ix = true := by
        simpa [containsCall] using h
      rcases hor with ht | hix
      · obtain ⟨m, hm⟩ := evalExpr_containsCall_error rt t ht
        exact ⟨m, by simp [evalExpr, hm]⟩
      · cases hT : evalExpr rt t with
        | error m => exact ⟨m, by simp [evalExpr, hT]⟩
        | ok tv =>
            obtain ⟨m, hm⟩ := evalExpr_containsCall_error rt ix hix
            exact ⟨m, by simp [evalExpr, hT, hm]⟩

theorem evalExprList_containsCall_error (rt : Runtime) :
    ∀ es : List Expr, containsCallList es = true →
      ∃ msg, evalExprList rt es = Except.error msg
  | [] => by simp [containsCallList]
  | e :: es => fun h => by
      have hor : containsCall e = true ∨ containsCallList es = true := by
        simpa [containsCallList] using h
      rcases hor with he | hes
      · obtain ⟨m, hm⟩ := evalExpr_containsCall_error rt e he
        exact ⟨m, by simp [evalExprList, hm]⟩
      · cases hE : evalExpr rt e with
        | error m => exact ⟨m, by simp [evalExprList, hE]⟩
        | ok v =>
            obtain ⟨m, hm⟩ := evalExprList_containsCall_error rt es hes
            exact ⟨m, by simp [evalExprList, hE, hm]⟩

end

/-! ### Lexer lemmas -/

theorem tokenizeAux_ne_nil (isNum isAlphab : Char → Bool) (n : Nat) (cs : List Char) :
    tokenizeAux isNum isAlphab (n + 1) cs ≠ [] := by
  simp only [tokenizeAux]
  split <;> simp

theorem tokenizeAux_getLast (isNum isAlphab : Char → Bool) :
    ∀ (n : Nat) (cs : List Char), cs.length < n →
      (tokenizeAux isNum isAlphab n cs).getLast? = some Token.Eof := by
  intro n
  induction n with
  | zero => intro cs h; omega
  | succ n ih =>
      intro cs h
      simp only [tokenizeAux]
      split
      · simp
      · next t rest hne heq =>
          have ht : (nextToken isNum isAlphab cs).1 ≠ Token.Eof := by
            rw [heq]
            intro hc
            exact hne hc
          have hlt := nextToken_snd_lt isNum isAlphab cs ht
          rw [heq] at hlt
          simp only at hlt
          have h2 := ih rest (by omega)
          obtain ⟨m, rfl⟩ : ∃ j, n = j + 1 := ⟨n - 1, by omega⟩
          have h3 := tokenizeAux_ne_nil isNum isAlphab m rest
          cases hl : tokenizeAux isNum isAlphab (m + 1) rest with
          | nil => exact absurd hl h3
          | cons a l =>
              rw [hl] at h2
              rw [List.getLast?_cons_cons]
              exact h2

theorem isDigit_toNat (c : Char) (h : c.isDigit = true) :
    48 ≤ c.toNat ∧ c.toNat ≤ 57 := by
  simp only [Char.isDigit, Bool.and_eq_true, decide_eq_true_eq] at h
  obtain ⟨h1, h2⟩ := h
  have h1' : (48 : UInt32) ≤ c.val := h1
  rw [UInt32.le_def, BitVec.le_def] at h1' h2
  exact ⟨h1', h2⟩

theorem digit_not_wsRust (c : Char) (h : c.isDigit = true) :
    isWhitespaceRust c = false := by
  obtain ⟨h1, h2⟩ := isDigit_toNat c h
  cases hw : isWhitespaceRust c
  · rfl
  · exfalso
    simp only [isWhitespaceRust, Bool.or_eq_true, Bool.and_eq_true,
      decide_eq_true_eq] at hw
    omega

theorem digit_ne_of_not_digit (c d : Char) (h : c.isDigit = true)
    (hd : d.isDigit = false) : c ≠ d := by
  intro he
  subst he
  rw [h] at hd
  cases hd

theorem digit_punctToken (c : Char) (h : c.isDigit = true) : punctToken c = none := by
  unfold punctToken
  rw [if_neg (digit_ne_of_not_digit c '(' h (by decide)),
      if_neg (digit_ne_of_not_digit c ')' h (by decide)),
      if_neg (digit_ne_of_not_digit c '\x7b' h (by decide)),
      if_neg (digit_ne_of_not_digit c '\x7d' h (by decide)),
      if_neg (digit_ne_of_not_digit c '[' h (by decide)),
      if_neg (digit_ne_of_not_digit c ']' h (by decide)),
      if_neg (digit_ne_of_not_digit c ',' h (by decide)),
      if_neg (digit_ne_of_not_digit c ';' h (by decide)),
      if_neg (digit_ne_of_not_digit c ':' h (by decide)),
      if_neg (digit_ne_of_not_digit c '=' h (by decide)),
      if_neg (digit_ne_of_not_digit c '.' h (by decide))]

theorem readDigits_append (isNum : Char → Bool) :
    ∀ (ds rest : List Char), (∀ c ∈ ds, isNum c = true) →
      (∀ c, rest.head? = some c → isNum c = false) →
      readDigits isNum (ds ++ rest) = (ds, rest) := by
  intro ds
  induction ds with
  | nil =>
      intro rest hds hrest
      cases rest with
      | nil => rfl
      | cons c r =>
          have hc := hrest c rfl
          simp [readDigits, hc]
  | cons d ds ih =>
      intro rest hds hrest
      have hd : isNum d = true := hds d (by simp)
      have hih := ih rest (fun c hc => hds c (by simp [hc])) hrest
      simp [readDigits, hd, hih]

/-! ### Claim theorems -/

/-- **C5.** Variable lookup (`get_var`) searches the stack of local scopes
from innermost to outermost and falls back to the global mapping only if
the name is absent from every local scope; every binding write
(`set_var`) targets the innermost local scope when the local stack is
non-empty, otherwise the global mapping; hence a `Let` executed inside a
function body (where a scope is pushed, so the local stack is non-empty)
binds into the innermost scope and leaves the globals untouched. -/
theorem environment_scoping_discipline :
    (∀ (g s : Scope) (rest : List Scope) (name : String) (v : Value),
        lookupScope name s = some v →
        getVar ⟨g, s :: rest⟩ name = some v) ∧
    (∀ (g s : Scope) (rest : List Scope) (name : String),
        lookupScope name s = none →
        getVar ⟨g, s :: rest⟩ name = getVar ⟨g, rest⟩ name) ∧
    (∀ (g : Scope) (locals : List Scope) (name : String),
        (∀ s ∈ locals, lookupScope name s = none) →
        getVar ⟨g, locals⟩ name = lookupScope name g) ∧
    (∀ (g s : Scope) (rest : List Scope) (name : String) (v : Value),
        setVar ⟨g, s :: rest⟩ name v = ⟨g, insertScope name v s :: rest⟩) ∧
    (∀ (g : Scope) (name : String) (v : Value),
        setVar ⟨g, []⟩ name v = ⟨insertScope name v g, []⟩) ∧
    (∀ (g s : Scope) (rest : List Scope) (n : String) (ty : Ty) (e : Expr) (v : Value),
        evalExpr ⟨g, s :: rest⟩ e = Except.ok v →
        evalStmt ⟨g, s :: rest⟩ (Stmt.Let n ty e) =
          (Except.ok none, ⟨g, insertScope n v s :: rest⟩)) := by
  refine ⟨?_, ?_, ?_, ?_, ?_, ?_⟩
  · intro g s rest name v h
    simp [getVar, lookupLocals, h]
  · intro g s rest name h
    simp [getVar, lookupLocals, h]
  · intro g locals name h
    induction locals with
    | nil => simp [getVar, lookupLocals]
    | cons s rest ih =>
        have hs := h s (by simp)
        have hr := ih (fun t ht => h t (by simp [ht]))
        simp only [getVar, lookupLocals, hs] at hr ⊢
        exact hr
  · intro g s rest name v
    simp [setVar]
  · intro g name v
    simp [setVar]
  · intro g s rest n ty e v h
    simp [evalStmt, h, setVar]

/-- Witness for C5: with `x` bound in the globals and in two stacked local
scopes, lookup returns the innermost binding; with `x` absent from the
one local scope, lookup falls back to the global binding; and a `Let`
executed with a pushed (non-empty) local stack binds into that innermost
scope and leaves the globals empty. -/
theorem environment_scoping_discipline_case :
    getVar ⟨[("x", Value.Int 1)], [[("x", Value.Int 2)], [("x", Value.Int 3)]]⟩ "x"
      = some (Value.Int 2) ∧
    getVar ⟨[("x", Value.Int 1)], [[("y", Value.Int 9)]]⟩ "x"
      = some (Value.Int 1) ∧
    evalStmt ⟨[], [[]]⟩ (Stmt.Let "z" Ty.Int (Expr.Int 7)) =
      (Except.ok none, ⟨[], [[("z", Value.Int 7)]]⟩) :=
  ⟨environment_scoping_discipline.1 [("x", Value.Int 1)] [("x", Value.Int 2)]
      [[("x", Value.Int 3)]] "x" (Value.Int 2) rfl,
   environment_scoping_discipline.2.2.1 [("x", Value.Int 1)] [[("y", Value.Int 9)]] "x"
      (by intro s hs; simp at hs; subst hs; rfl),
   environment_scoping_discipline.2.2.2.2.2 [] [] [] "z" Ty.Int (Expr.Int 7)
      (Value.Int 7) rfl⟩

/-- **C6.** For every numeric/alphabetic classifier pair — in particular
Rust's own `is_numeric`/`is_alphabetic`, at which the parametric lexer is
the program's — and every input, `tokenize` returns a finite token
sequence whose last element is the end-of-input marker (the loop always
reaches `Eof`, each step consuming input); and lexing never fails: a
single character that is not whitespace, not alphanumeric
(`is_alphabetic || is_numeric`, so in particular not a digit), not an
underscore, and not one of the fixed punctuation marks is emitted as a
one-character identifier token. -/
theorem tokenize_terminated_never_fails :
    (∀ (isNum isAlphab : Char → Bool) (cs : List Char),
        (tokenizeWith isNum isAlphab cs).getLast? = some Token.Eof) ∧
    (∀ (isNum isAlphab : Char → Bool) (c : Char) (rest : List Char),
        isWhitespaceRust c = false → (isAlphab c || isNum c) = false →
        c ≠ '_' → punctToken c = none →
        nextToken isNum isAlphab (c :: rest) =
          (Token.Ident (String.mk [c]), rest)) := by
  constructor
  · intro isNum isAlphab cs
    exact tokenizeAux_getLast isNum isAlphab (cs.length + 1) cs (by omega)
  · intro isNum isAlphab c rest hws ha hu hp
    have ha1 : isAlphab c = false := by
      cases hx : isAlphab c
      · rfl
      · rw [hx] at ha; simp at ha
    have ha2 : isNum c = false := by
      cases hx : isNum c
      · rfl
      · rw [hx] at ha; simp at ha
    have hskip : skipWs (c :: rest) = c :: rest := by
      simp [skipWs, List.dropWhile_cons, hws]
    unfold nextToken
    rw [hskip]
    simp [nextTokenAt, hp, ha1, ha2, hu]

/-- Witness for C6: `@` is neither whitespace, alphanumeric, underscore
nor punctuation, and lexes to the one-character identifier `"@"` (under
the ASCII classifiers, which agree with Rust's at every character
involved); the tokenization of `"@"` ends in the end-marker. -/
theorem tokenize_terminated_never_fails_case :
    (tokenize "@".data).getLast? = some Token.Eof ∧
    nextToken Char.isDigit Char.isAlpha ('@' :: "ab".data) =
      (Token.Ident (String.mk ['@']), "ab".data) :=
  ⟨tokenize_terminated_never_fails.1 Char.isDigit Char.isAlpha "@".data,
   tokenize_terminated_never_fails.2 Char.isDigit Char.isAlpha '@' "ab".data
     rfl rfl (by decide) rfl⟩

/-- **C7.** For every numeric classifier accepting the decimal digits —
in particular Rust's `is_numeric` — a maximal run of decimal digits
(maximal: the next character is not accepted by the classifier, so the
program's `read_number` collects exactly this run) lexes to one
integer-literal token whose value is the run parsed as a 64-bit signed
integer; the parse yields the decimal value exactly for a non-empty
ASCII-digit run that fits in `i64`, and a run that fails to parse (one
exceeding the `i64` range) degrades to value zero while the lex pass
still succeeds (twenty nines lex to `IntLit 0` followed by `Eof`). -/
theorem int_literal_lexing :
    (∀ (isNum isAlphab : Char → Bool) (ds rest : List Char),
        ds ≠ [] → (∀ c ∈ ds, c.isDigit = true) →
        (∀ c, c.isDigit = true → isNum c = true) →
        (∀ c, rest.head? = some c → isNum c = false) →
        nextToken isNum isAlphab (ds ++ rest) =
          (Token.IntLit (parseI64 ds), rest)) ∧
    (∀ ds : List Char, ds ≠ [] → ds.all Char.isDigit = true →
        digitsToNat ds ≤ maxI64 → parseI64 ds = Int.ofNat (digitsToNat ds)) ∧
    (∀ ds : List Char, maxI64 < digitsToNat ds → parseI64 ds = 0) ∧
    tokenize "99999999999999999999".data = [Token.IntLit 0, Token.Eof] := by
  refine ⟨?_, ?_, ?_, ?_⟩
  · intro isNum isAlphab ds rest hne hds hnum hrest
    obtain ⟨d, ds', rfl⟩ : ∃ d ds', ds = d :: ds' := by
      cases ds with
      | nil => exact absurd rfl hne
      | cons d ds' => exact ⟨d, ds', rfl⟩
    have hd : d.isDigit = true := hds d (by simp)
    have hdn : isNum d = true := hnum d hd
    have hws : isWhitespaceRust d = false := digit_not_wsRust d hd
    have hp : punctToken d = none := digit_punctToken d hd
    have hrd := readDigits_append isNum (d :: ds') rest
      (fun c hc => hnum c (hds c hc)) hrest
    unfold nextToken
    have hskip : skipWs ((d :: ds') ++ rest) = d :: (ds' ++ rest) := by
      simp [skipWs, List.dropWhile_cons, hws]
    rw [hskip]
    rw [List.cons_append] at hrd
    simp [nextTokenAt, hp, hdn, hrd]
  · intro ds hne hall hle
    simp [parseI64, hne, hall, hle]
  · intro ds h
    have hnc : ¬(ds ≠ [] ∧ ds.all Char.isDigit = true ∧ digitsToNat ds ≤ maxI64) := by
      intro hcon
      exact absurd hcon.2.2 (by omega)
    unfold parseI64
    rw [if_neg hnc]
  · rfl

/-- Witness for C7: the digit run `12` before `;` lexes to a single
integer literal whose value is `digitsToNat ['1','2'] = 12` (under the
ASCII classifiers; the digit-acceptance hypothesis is then trivial). -/
theorem int_literal_lexing_case :
    nextToken Char.isDigit Char.isAlpha "12;".data =
      (Token.IntLit (parseI64 ['1', '2']), [';']) ∧
    parseI64 ['1', '2'] = Int.ofNat (digitsToNat ['1', '2']) :=
  ⟨int_literal_lexing.1 Char.isDigit Char.isAlpha ['1', '2'] [';'] (by decide)
      (by decide) (fun _ h => h) (by intro c hc; cases hc; rfl),
   int_literal_lexing.2.1 ['1', '2'] (by decide) (by decide) (by decide)⟩

/-- `parse_data` stops, without failure, at the first token that is not
`let` (this covers end-of-input and `}` as well). -/
theorem parseData_stop (ts : List Token) (h : currentTok ts ≠ Token.Let) :
    parseData ts = Except.ok ([], ts) := by
  unfold parseData
  split_ifs with h1
  · rfl
  · rfl

/-- `parse_data` on a well-formed `let name: int = literal;` prefix
appends one `(name, value)` entry and continues on the rest. -/
theorem parseData_entry (n : String) (v : Int) (rest : List Token) :
    parseData (Token.Let :: Token.Ident n :: Token.Colon :: Token.Int ::
        Token.Equals :: Token.IntLit v :: Token.Semicolon :: rest) =
      match parseData rest with
      | Except.error e => Except.error e
      | Except.ok (entries, ts) => Except.ok ((n, v) :: entries, ts) := by
  conv_lhs => rw [parseData.eq_def]
  rfl

/-- **C8.** Data-definition parsing appends one (name, integer value)
entry per `let name: int = literal;` statement in source order, and stops
without failure at end-of-input or at the first token that is not `let`;
`let a: int = 5; let b: int = 7;` parses to a Data file with entries
`[("a",5), ("b",7)]` in that order. -/
theorem data_definition_parsing :
    parse "let a: int = 5; let b: int = 7;" =
      Except.ok (FileContent.Data ⟨[("a", 5), ("b", 7)]⟩) ∧
    (∀ ts : List Token, currentTok ts ≠ Token.Let →
        parseData ts = Except.ok ([], ts)) ∧
    (∀ (n : String) (v : Int) (rest : List Token),
        parseData (Token.Let :: Token.Ident n :: Token.Colon :: Token.Int ::
            Token.Equals :: Token.IntLit v :: Token.Semicolon :: rest) =
          match parseData rest with
          | Except.error e => Except.error e
          | Except.ok (entries, ts) => Except.ok ((n, v) :: entries, ts)) := by
  refine ⟨?_, parseData_stop, parseData_entry⟩
  have htok : tokenize "let a: int = 5; let b: int = 7;".data =
      [Token.Let, Token.Ident "a", Token.Colon, Token.Int, Token.Equals,
       Token.IntLit 5, Token.Semicolon, Token.Let, Token.Ident "b", Token.Colon,
       Token.Int, Token.Equals, Token.IntLit 7, Token.Semicolon, Token.Eof] := rfl
  have e0 : parseData [Token.Eof] = Except.ok ([], [Token.Eof]) :=
    parseData_stop [Token.Eof] (by decide)
  have e2 := parseData_entry "b" 7 [Token.Eof]
  simp only [e0] at e2
  have e1 := parseData_entry "a" 5
    [Token.Let, Token.Ident "b", Token.Colon, Token.Int, Token.Equals,
     Token.IntLit 7, Token.Semicolon, Token.Eof]
  simp only [e2] at e1
  simp [parse, htok, parseFileF, currentTok, e1]

/-- Witness for C8: parsing stops cleanly at a leading `}` (a Data file
embedded in a larger brace-delimited construct), with no entries. -/
theorem data_definition_parsing_case :
    parseData [Token.RBrace] = Except.ok ([], [Token.RBrace]) :=
  data_definition_parsing.2.1 [Token.RBrace] (by decide)

/-- **C10.** A parenthesised identifier followed by an argument list is
accepted as a function call: `(f)(x)` parses to
`Call{name: "f", args: [Var "x"]}`, because grouping parentheses yield
the same variable-reference node as a bare identifier; the callee-shape
restriction ("Only identifiers can be called") rejects literal callees
(`1(2)`), data-field callees (`.d(2)`), call-result callees (`f(1)(2)`)
and index-result callees (`f[0](2)`). -/
theorem parenthesised_callee_accepted :
    parseExprRun (tokenize "(f)(x)".data) =
      Except.ok (Expr.Call "f" [Expr.Var "x"], [Token.Eof]) ∧
    parseExprRun (tokenize "1(2)".data) =
      Except.error "Only identifiers can be called" ∧
    parseExprRun (tokenize ".d(2)".data) =
      Except.error "Only identifiers can be called" ∧
    parseExprRun (tokenize "f(1)(2)".data) =
      Except.error "Only identifiers can be called" ∧
    parseExprRun (tokenize "f[0](2)".data) =
      Except.error "Only identifiers can be called" :=
  ⟨rfl, rfl, rfl, rfl, rfl⟩

end Xeno

namespace Xeno

/-- **C1.** For every Function carrying a trailing return-expression,
`eval_function` evaluates that expression after the body loop, in the
still-pushed local scope of the call (the state `rt2` left by the body
loop, popped only afterwards), and its value is the function's result,
overriding any value `ov` produced by an explicit `Return` statement
executed during the body. -/
theorem trailing_return_expr_overrides
    (rt rt2 : Runtime) (func : Xeno.Function) (args : List Value) (e : Expr)
    (ov : Option Value) (v : Value)
    (hret : func.return_expr = some e)
    (hargs : func.params.length = args.length)
    (hbody : evalBody (bindParams (pushScope rt) func.params args) func.body
             = (Except.ok ov, rt2))
    (heval : evalExpr rt2 e = Except.ok v) :
    evalFunction rt func args = (Except.ok v, popScope rt2) := by
  unfold evalFunction
  rw [if_neg (not_not_intro hargs)]
  simp only [hbody, hret, heval]

/-- Witness for C1: a function whose body is `return 1;` with trailing
expression `3` evaluates to `Int(3)`, the trailing expression overriding
the explicit return. -/
theorem trailing_return_expr_overrides_case :
    evalFunction Runtime.new
        ⟨"f", [], [Stmt.Return (Expr.Int 1)], some (Expr.Int 3)⟩ [] =
      (Except.ok (Value.Int 3), Runtime.new) :=
  trailing_return_expr_overrides Runtime.new (pushScope Runtime.new)
    ⟨"f", [], [Stmt.Return (Expr.Int 1)], some (Expr.Int 3)⟩ []
    (Expr.Int 3) (some (Value.Int 1)) (Value.Int 3) rfl rfl rfl rfl

/-- **C2, counterexample.** The claim says the local scope pushed on entry
is popped before `eval_function` returns in every outcome, including
failure. It is false: when a body statement fails (here `nope;` with
`nope` unbound), the `?` early return skips `pop_scope`, and the locals
stack is one deeper after the call than before it. -/
theorem scope_not_popped_on_failure :
    ¬ ((evalFunction Runtime.new
          ⟨"g", [], [Stmt.ExprStmt (Expr.Var "nope")], none⟩ []).2.locals.length
        = Runtime.new.locals.length) := by
  intro h
  have h1 : (evalFunction Runtime.new
      ⟨"g", [], [Stmt.ExprStmt (Expr.Var "nope")], none⟩ []).2.locals.length = 1 := rfl
  have h2 : Runtime.new.locals.length = 0 := rfl
  rw [h1, h2] at h
  cases h

/-- **C2, amended.** For every call of `eval_function` with a matching
argument count, the local scope pushed on entry is popped before
`eval_function` returns when the call produces a Value, so the locals
stack has the same depth after a successful call as before it; but when
the call fails (a body statement or the trailing expression fails to
evaluate), the error propagates before `pop_scope` runs, and the locals
stack is exactly one scope deeper than before the call. -/
theorem evalFunction_body_error (rt rt2 : Runtime) (func : Xeno.Function)
    (args : List Value) (e : String)
    (hargs : func.params.length = args.length)
    (hbody : evalBody (bindParams (pushScope rt) func.params args) func.body
             = (Except.error e, rt2)) :
    evalFunction rt func args = (Except.error e, rt2) := by
  unfold evalFunction
  rw [if_neg (not_not_intro hargs)]
  simp only [hbody]

theorem evalFunction_ok_trailing (rt rt2 : Runtime) (func : Xeno.Function)
    (args : List Value) (ov : Option Value) (e : Expr)
    (hargs : func.params.length = args.length)
    (hbody : evalBody (bindParams (pushScope rt) func.params args) func.body
             = (Except.ok ov, rt2))
    (hret : func.return_expr = some e) :
    evalFunction rt func args =
      (match evalExpr rt2 e with
       | Except.error err => (Except.error err, rt2)
       | Except.ok v => (Except.ok v, popScope rt2)) := by
  unfold evalFunction
  rw [if_neg (not_not_intro hargs)]
  simp only [hbody, hret]

theorem evalFunction_ok_no_trailing (rt rt2 : Runtime) (func : Xeno.Function)
    (args : List Value) (ov : Option Value)
    (hargs : func.params.length = args.length)
    (hbody : evalBody (bindParams (pushScope rt) func.params args) func.body
             = (Except.ok ov, rt2))
    (hret : func.return_expr = none) :
    evalFunction rt func args = (Except.ok (ov.getD (Value.Int 0)), popScope rt2) := by
  unfold evalFunction
  rw [if_neg (not_not_intro hargs)]
  simp only [hbody, hret]

theorem scope_popped_on_success_leaked_on_failure
    (rt : Runtime) (func : Xeno.Function) (args : List Value)
    (hargs : func.params.length = args.length) :
    (∀ v rt', evalFunction rt func args = (Except.ok v, rt') →
        rt'.locals.length = rt.locals.length) ∧
    (∀ msg rt', evalFunction rt func args = (Except.error msg, rt') →
        rt'.locals.length = rt.locals.length + 1) := by
  have hb := evalBody_locals_length func.body (bindParams (pushScope rt) func.params args)
  have hbp := bindParams_locals_length (pushScope rt) func.params args
  have hpush : (pushScope rt).locals.length = rt.locals.length + 1 := by
    simp [pushScope]
  rw [hbp, hpush] at hb
  rcases hbody : evalBody (bindParams (pushScope rt) func.params args) func.body
    with ⟨res, rt2⟩
  rw [hbody] at hb
  simp only at hb
  constructor
  · intro v rt' h
    cases res with
    | error e =>
        rw [evalFunction_body_error rt rt2 func args e hargs hbody] at h
        simp at h
    | ok ov =>
        cases hret : func.return_expr with
        | none =>
            rw [evalFunction_ok_no_trailing rt rt2 func args ov hargs hbody hret] at h
            simp only [Prod.mk.injEq] at h
            obtain ⟨-, h2⟩ := h
            rw [← h2]
            simp only [popScope, List.length_tail]
            omega
        | some e =>
            rw [evalFunction_ok_trailing rt rt2 func args ov e hargs hbody hret] at h
            cases he : evalExpr rt2 e with
            | error err => rw [he] at h; simp at h
            | ok w =>
                rw [he] at h
                simp only [Prod.mk.injEq] at h
                obtain ⟨-, h2⟩ := h
                rw [← h2]
                simp only [popScope, List.length_tail]
                omega
  · intro msg rt' h
    cases res with
    | error e =>
        rw [evalFunction_body_error rt rt2 func args e hargs hbody] at h
        simp only [Prod.mk.injEq] at h
        obtain ⟨-, h2⟩ := h
        rw [← h2]
        exact hb
    | ok ov =>
        cases hret : func.return_expr with
        | none =>
            rw [evalFunction_ok_no_trailing rt rt2 func args ov hargs hbody hret] at h
            simp at h
        | some e =>
            rw [evalFunction_ok_trailing rt rt2 func args ov e hargs hbody hret] at h
            cases he : evalExpr rt2 e with
            | error err =>
                rw [he] at h
                simp only [Prod.mk.injEq] at h
                obtain ⟨-, h2⟩ := h
                rw [← h2]
                exact hb
            | ok w => rw [he] at h; simp at h

/-- **C3.** Evaluating a `Call` expression fails with a message naming the
callee identifier, unconditionally; and evaluating any expression that
contains a function-call sub-expression always fails (either at the call
itself, or, for a call in a position reached after an earlier failure,
with that earlier failure), regardless of the callee or the validity of
the argument expressions. -/
theorem call_evaluation_always_fails :
    (∀ (rt : Runtime) (name : String) (args : List Expr),
        evalExpr rt (Expr.Call name args) =
          Except.error ("Function calls not yet supported in evaluation: " ++ name)) ∧
    (∀ (rt : Runtime) (e : Expr), containsCall e = true →
        ∃ msg, evalExpr rt e = Except.error msg) :=
  ⟨fun _ _ _ => rfl, fun rt e h => evalExpr_containsCall_error rt e h⟩

/-- Witness for C3: a direct call fails naming `f`, and an expression
merely containing a call (an index whose index operand is a call with a
perfectly valid argument) also fails. -/
theorem call_evaluation_always_fails_case :
    evalExpr Runtime.new (Expr.Call "f" [Expr.Int 1]) =
      Except.error "Function calls not yet supported in evaluation: f" ∧
    ∃ msg, evalExpr Runtime.new
        (Expr.Index (Expr.Array [Expr.Int 10]) (Expr.Call "g" [Expr.Int 0])) =
      Except.error msg :=
  ⟨call_evaluation_always_fails.1 Runtime.new "f" [Expr.Int 1],
   call_evaluation_always_fails.2 Runtime.new
     (Expr.Index (Expr.Array [Expr.Int 10]) (Expr.Call "g" [Expr.Int 0])) rfl⟩

/-- **C4.** Index evaluation: the target is evaluated first (its failure is
the result), then the index (its failure is the result); for an Array
target and an Int index, the index is reinterpreted as an unsigned
position (`toUsize`) which must be strictly less than the array length,
yielding the element there, else a failure naming the out-of-range
position; any other combination of target/index kinds fails with the
type-mismatch message. -/
theorem index_evaluation_semantics :
    (∀ (rt : Runtime) (t ix : Expr) (m : String),
        evalExpr rt t = Except.error m →
        evalExpr rt (Expr.Index t ix) = Except.error m) ∧
    (∀ (rt : Runtime) (t ix : Expr) (tv : Value) (m : String),
        evalExpr rt t = Except.ok tv →
        evalExpr rt ix = Except.error m →
        evalExpr rt (Expr.Index t ix) = Except.error m) ∧
    (∀ (rt : Runtime) (t ix : Expr) (arr : List Value) (n : Int),
        evalExpr rt t = Except.ok (Value.Array arr) →
        evalExpr rt ix = Except.ok (Value.Int n) →
        (∀ h : toUsize n < arr.length,
            evalExpr rt (Expr.Index t ix) =
              Except.ok (arr.get ⟨toUsize n, h⟩)) ∧
        (¬ toUsize n < arr.length →
            evalExpr rt (Expr.Index t ix) =
              Except.error ("Array index out of bounds: " ++ toString (toUsize n)))) ∧
    (∀ (rt : Runtime) (t ix : Expr) (tv iv : Value),
        evalExpr rt t = Except.ok tv →
        evalExpr rt ix = Except.ok iv →
        ¬ (∃ arr n, tv = Value.Array arr ∧ iv = Value.Int n) →
        evalExpr rt (Expr.Index t ix) =
          Except.error "Array indexing requires array and int") := by
  refine ⟨?_, ?_, ?_, ?_⟩
  · intro rt t ix m hT
    simp [evalExpr, hT]
  · intro rt t ix tv m hT hI
    simp [evalExpr, hT, hI]
  · intro rt t ix arr n hT hI
    constructor
    · intro h
      simp [evalExpr, hT, hI, List.getElem?_eq_getElem h]
    · intro h
      simp [evalExpr, hT, hI, List.getElem?_eq_none (Nat.le_of_not_lt h)]
  · intro rt t ix tv iv hT hI hmis
    cases tv with
    | Int a =>
        cases iv <;> simp [evalExpr, hT, hI]
    | Array arr =>
        cases iv with
        | Int n => exact absurd ⟨arr, n, rfl, rfl⟩ hmis
        | Array arr2 => simp [evalExpr, hT, hI]

/-- Witness for C4: `a[1]` on `Array([Int(10), Int(20)])` yields `Int(20)`,
and on `Array([Int(10)])` fails naming index 1. -/
theorem index_evaluation_semantics_case :
    evalExpr Runtime.new
        (Expr.Index (Expr.Array [Expr.Int 10, Expr.Int 20]) (Expr.Int 1)) =
      Except.ok (Value.Int 20) ∧
    evalExpr Runtime.new
        (Expr.Index (Expr.Array [Expr.Int 10]) (Expr.Int 1)) =
      Except.error ("Array index out of bounds: " ++ toString (toUsize 1)) :=
  ⟨((index_evaluation_semantics.2.2.1 Runtime.new
      (Expr.Array [Expr.Int 10, Expr.Int 20]) (Expr.Int 1)
      [Value.Int 10, Value.Int 20] 1 rfl rfl).1 (by decide)),
   ((index_evaluation_semantics.2.2.1 Runtime.new
      (Expr.Array [Expr.Int 10]) (Expr.Int 1)
      [Value.Int 10] 1 rfl rfl).2 (by decide))⟩

/-- Witness for the amended C2: a successful call leaves the depth
unchanged, and the failing call of the counterexample leaves it one
deeper. -/
theorem scope_popped_on_success_leaked_on_failure_case :
    (evalFunction Runtime.new
        ⟨"f", [], [Stmt.Return (Expr.Int 1)], some (Expr.Int 3)⟩ []).2.locals.length
      = Runtime.new.locals.length ∧
    (evalFunction Runtime.new
        ⟨"g", [], [Stmt.ExprStmt (Expr.Var "nope")], none⟩ []).2.locals.length
      = Runtime.new.locals.length + 1 :=
  ⟨(scope_popped_on_success_leaked_on_failure Runtime.new
      ⟨"f", [], [Stmt.Return (Expr.Int 1)], some (Expr.Int 3)⟩ [] rfl).1
      (Value.Int 3) Runtime.new rfl,
   (scope_popped_on_success_leaked_on_failure Runtime.new
      ⟨"g", [], [Stmt.ExprStmt (Expr.Var "nope")], none⟩ [] rfl).2
      "Undefined variable: nope" (pushScope Runtime.new) rfl⟩


/-! ### Literal-only (pure) functions, for the determinism claim -/

mutual

/-- An expression built from integer and array literals only: no variable
or data-field reads, no calls, no indexing. -/
def isLitExpr : Expr → Bool
  | Expr.Int _ => true
  | Expr.Array es => isLitList es
  | Expr.Var _ => false
  | Expr.DataRef _ => false
  | Expr.Call _ _ => false
  | Expr.Index _ _ => false

/-- All expressions of the list are literals. -/
def isLitList : List Expr → Bool
  | [] => true
  | e :: es => isLitExpr e && isLitList es

end

mutual

/-- The value of a literal expression (junk on non-literals). -/
def litValue : Expr → Value
  | Expr.Int n => Value.Int n
  | Expr.Array es => Value.Array (litList es)
  | _ => Value.Int 0

/-- Values of a list of literal expressions. -/
def litList : List Expr → List Value
  | [] => []
  | e :: es => litValue e :: litList es

end

mutual

theorem evalExpr_lit (rt : Runtime) :
    ∀ e : Expr, isLitExpr e = true → evalExpr rt e = Except.ok (litValue e)
  | Expr.Int _ => fun _ => rfl
  | Expr.Array es => fun h => by
      have hm := evalExprList_lit rt es (by simpa [isLitExpr] using h)
      simp [evalExpr, hm, litValue]
  | Expr.Var _ => by simp [isLitExpr]
  | Expr.DataRef _ => by simp [isLitExpr]
  | Expr.Call _ _ => by simp [isLitExpr]
  | Expr.Index _ _ => by simp [isLitExpr]

theorem evalExprList_lit (rt : Runtime) :
    ∀ es : List Expr, isLitList es = true →
      evalExprList rt es = Except.ok (litList es)
  | [] => fun _ => rfl
  | e :: es => fun h => by
      have hh : isLitExpr e = true ∧ isLitList es = true := by
        simpa [isLitList, Bool.and_eq_true] using h
      have h1 := evalExpr_lit rt e hh.1
      have h2 := evalExprList_lit rt es hh.2
      simp [evalExprList, h1, h2, litList]

end

/-- A statement whose expression is a literal. -/
def isLitStmt : Stmt → Bool
  | Stmt.Let _ _ e => isLitExpr e
  | Stmt.ExprStmt e => isLitExpr e
  | Stmt.Return e => isLitExpr e

/-- A function with only literal-valued statements (and literal trailing
expression, when present): it contains no variable reads and no calls. -/
def isLitFunction (f : Xeno.Function) : Bool :=
  f.body.all isLitStmt &&
    (match f.return_expr with
     | some e => isLitExpr e
     | none => true)

/-- The value produced by the body loop of a literal-only body: the value
of the first `Return`, if any. -/
def litBodyResult : List Stmt → Option Value
  | [] => none
  | Stmt.Return e :: _ => some (litValue e)
  | _ :: rest => litBodyResult rest

/-- The result of evaluating a literal-only function. -/
def litResult (f : Xeno.Function) : Value :=
  match f.return_expr with
  | some e => litValue e
  | none => (litBodyResult f.body).getD (Value.Int 0)

theorem evalBody_lit :
    ∀ (stmts : List Stmt) (rt : Runtime), stmts.all isLitStmt = true →
      ∃ rt', evalBody rt stmts = (Except.ok (litBodyResult stmts), rt') := by
  intro stmts
  induction stmts with
  | nil => intro rt _; exact ⟨rt, rfl⟩
  | cons s rest ih =>
      intro rt h
      have hs : isLitStmt s = true ∧ rest.all isLitStmt = true := by
        simpa [List.all_cons, Bool.and_eq_true] using h
      cases s with
      | Let n ty e =>
          have he := evalExpr_lit rt e (by simpa [isLitStmt] using hs.1)
          obtain ⟨rt', hrest⟩ := ih (setVar rt n (litValue e)) hs.2
          refine ⟨rt', ?_⟩
          simp [evalBody, evalStmt, he, hrest, litBodyResult]
      | ExprStmt e =>
          have he := evalExpr_lit rt e (by simpa [isLitStmt] using hs.1)
          obtain ⟨rt', hrest⟩ := ih rt hs.2
          refine ⟨rt', ?_⟩
          simp [evalBody, evalStmt, he, hrest, litBodyResult]
      | Return e =>
          have he := evalExpr_lit rt e (by simpa [isLitStmt] using hs.1)
          refine ⟨rt, ?_⟩
          simp [evalBody, evalStmt, he, litBodyResult]

/-- **C9.** For every function whose statements (and trailing expression,
if any) contain only literal-valued expressions and no calls, and every
argument list of the correct length, the call succeeds and its Value is
`litResult func`, a function of the AST alone — in particular the same
Value is produced on every Runtime, so evaluating repeatedly on the same
Runtime (threading the state left by the previous call) yields the same
Value on every evaluation. -/
theorem pure_function_evaluation_deterministic
    (func : Xeno.Function) (args : List Value)
    (hlit : isLitFunction func = true)
    (hargs : func.params.length = args.length) :
    (∀ rt : Runtime, (evalFunction rt func args).1 = Except.ok (litResult func)) ∧
    (∀ rt : Runtime,
        (evalFunction (evalFunction rt func args).2 func args).1 =
          (evalFunction rt func args).1) := by
  have hl : func.body.all isLitStmt = true ∧
      (match func.return_expr with
       | some e => isLitExpr e
       | none => true) = true := by
    simpa [isLitFunction, Bool.and_eq_true] using hlit
  have hmain : ∀ rt : Runtime, (evalFunction rt func args).1 =
      Except.ok (litResult func) := by
    intro rt
    obtain ⟨rt2, hbody⟩ :=
      evalBody_lit func.body (bindParams (pushScope rt) func.params args) hl.1
    cases hret : func.return_expr with
    | some e =>
        have he : isLitExpr e = true := by
          have := hl.2
          rw [hret] at this
          exact this
        rw [evalFunction_ok_trailing rt rt2 func args (litBodyResult func.body) e
              hargs hbody hret]
        rw [evalExpr_lit rt2 e he]
        simp [litResult, hret]
    | none =>
        rw [evalFunction_ok_no_trailing rt rt2 func args (litBodyResult func.body)
              hargs hbody hret]
        simp [litResult, hret]
  exact ⟨hmain, fun rt => by rw [hmain, hmain]⟩

/-- Witness for C9: a literal-only function (`let x: int = 5; return 2;`)
evaluates to `Int(2)` from a fresh Runtime, and evaluating it again on the
Runtime left by the first call gives the same Value. -/
theorem pure_function_evaluation_deterministic_case :
    (evalFunction Runtime.new
        ⟨"h", [], [Stmt.Let "x" Ty.Int (Expr.Int 5), Stmt.Return (Expr.Int 2)],
         none⟩ []).1 = Except.ok (Value.Int 2) ∧
    (evalFunction
        (evalFunction Runtime.new
          ⟨"h", [], [Stmt.Let "x" Ty.Int (Expr.Int 5), Stmt.Return (Expr.Int 2)],
           none⟩ []).2
        ⟨"h", [], [Stmt.Let "x" Ty.Int (Expr.Int 5), Stmt.Return (Expr.Int 2)],
         none⟩ []).1 =
      (evalFunction Runtime.new
        ⟨"h", [], [Stmt.Let "x" Ty.Int (Expr.Int 5), Stmt.Return (Expr.Int 2)],
         none⟩ []).1 :=
  ⟨(pure_function_evaluation_deterministic
      ⟨"h", [], [Stmt.Let "x" Ty.Int (Expr.Int 5), Stmt.Return (Expr.Int 2)], none⟩
      [] rfl rfl).1 Runtime.new,
   (pure_function_evaluation_deterministic
      ⟨"h", [], [Stmt.Let "x" Ty.Int (Expr.Int 5), Stmt.Return (Expr.Int 2)], none⟩
      [] rfl rfl).2 Runtime.new⟩

end Xeno
